import Mathlib

set_option maxRecDepth 100000

/-!
Shallow embedding of the chunked file-transfer service: the in-memory
upload tracker and the on-disk chunk/upload directories of storage.py,
the upload endpoint of main.py, and the reclamation sweeps wired up in
background.py and the POST /cleanup endpoint.  Timestamps are naturals
passed in explicitly (datetime.now at each call site); byte strings are
lists of naturals; Python int arithmetic on range lengths is Int.
-/

namespace FileTransfer

/-- Bytes of a payload or a file, modelled as a list of naturals. -/
abbrev Bytes := List Nat

/-- A chunk as received by the upload endpoint (FileChunk in models.py). -/
structure FileChunk where
  file_id : String
  start_byte : Nat
  end_byte : Nat
  data : Bytes
  checksum : Nat
  total_size : Option Int
  timestamp : Nat
deriving DecidableEq

/-- One entry of the chunks list of a session in upload_tracker
(storage.py lines 38-44).  The dict key named end in the source is
spelled end_ here because end is a Lean keyword. -/
structure ChunkRec where
  start : Nat
  end_ : Nat
  path : String
  checksum : Nat
  timestamp : Nat
deriving DecidableEq

/-- A session record of upload_tracker (storage.py lines 31-36); status is
the optional dict key that only assemble_file ever sets. -/
structure FileInfo where
  chunks : List ChunkRec
  total_size : Option Int
  last_updated : Nat
  status : Option String
deriving DecidableEq

/-- The mutable state of storage.py: the in-memory upload_tracker plus the
two directories CHUNK_DIR and UPLOAD_DIR, each a name-to-content map kept
as an association list in insertion order (Python dicts preserve it). -/
structure StorageState where
  upload_tracker : List (String × FileInfo)
  chunk_files : List (String × Bytes)
  upload_files : List (String × Bytes)
deriving DecidableEq

def empty_state : StorageState := ⟨[], [], []⟩

/-- Dictionary read (Python dict indexing / .get). -/
def alookup (k : String) : List (String × α) → Option α
  | [] => none
  | (k1, v) :: rest => if k1 = k then some v else alookup k rest

/-- Dictionary write: overwrite the entry at the key or append a new one
(dict assignment; also writing a file with open(path, wb)). -/
def aset (k : String) (v : α) : List (String × α) → List (String × α)
  | [] => [(k, v)]
  | (k1, v1) :: rest => if k1 = k then (k, v) :: rest else (k1, v1) :: aset k v rest

/-- Dictionary delete (del tracker entry; os.remove with a missing file
ignored by the try/except OSError pattern). -/
def adel (k : String) : List (String × α) → List (String × α)
  | [] => []
  | (k1, v) :: rest => if k1 = k then adel k rest else (k1, v) :: adel k rest

/-- In-place mutation of the value stored at an existing key. -/
def aupdate (k : String) (f : α → α) : List (String × α) → List (String × α)
  | [] => []
  | (k1, v) :: rest => if k1 = k then (k1, f v) :: rest else (k1, v) :: aupdate k f rest

/-- end - start + 1, the per-chunk length the tracker sums; Python int
arithmetic, hence Int. -/
def chunk_len (c : ChunkRec) : Int := (c.end_ : Int) - (c.start : Int) + 1

/-- sum(c[end] - c[start] + 1 for c in chunks) as computed at
storage.py lines 49, 62 and 108. -/
def sumLens (l : List ChunkRec) : Int := l.foldl (fun acc c => acc + chunk_len c) 0

/-- The fragment file name built at storage.py line 24. -/
def chunk_path (c : FileChunk) : String :=
  c.file_id ++ "_" ++ toString c.start_byte ++ "_" ++ toString c.end_byte ++ ".chunk"

/-- Stable insertion by start, keeping earlier elements first among equal
keys, matching the stable Python sorted. -/
def insertByStart (c : ChunkRec) : List ChunkRec → List ChunkRec
  | [] => [c]
  | d :: ds => if c.start < d.start then c :: d :: ds else d :: insertByStart c ds

/-- sorted(chunks, key=lambda x: x[start]) at storage.py lines 58 and 175. -/
def sortByStart (l : List ChunkRec) : List ChunkRec :=
  l.foldl (fun acc c => insertByStart c acc) []

/-- The chunk-file removal loops (storage.py lines 76-80, 147-151 and
180-184): os.remove for each recorded fragment, missing files ignored. -/
def remove_chunk_files (chunks : List ChunkRec) (cf : List (String × Bytes)) :
    List (String × Bytes) :=
  chunks.foldl (fun fs c => adel c.path fs) cf

/-- Read and concatenate the fragment files of the given chunk records in
order.  On the first missing file the loop stops with the error; the bytes
read before it are returned as well, because in the source the output file
already contains them at the moment open raises. -/
def readConcat (cf : List (String × Bytes)) : List ChunkRec → Option String × Bytes
  | [] => (none, [])
  | c :: rest =>
    match alookup c.path cf with
    | none => (some ("FileNotFoundError"), [])
    | some d =>
      match readConcat cf rest with
      | (e, ds) => (e, d ++ ds)

/-- assemble_file (storage.py lines 53-85).  Result: the exception raised
if any, the returned boolean, and the new state.  On a read failure the
output artifact keeps the bytes written before the failure, chunk files
are not removed and the status flag is not set. -/
def assemble_file (file_id : String) (s : StorageState) : Option String × Bool × StorageState :=
  match alookup file_id s.upload_tracker with
  | none => (some ("ValueError"), false, s)
  | some file_info =>
    let chunks := sortByStart file_info.chunks
    let total_received := sumLens chunks
    match file_info.total_size with
    | none => (none, false, s)
    | some n =>
      if total_received < n then (none, false, s)
      else
        let rc := readConcat s.chunk_files chunks
        match rc.1 with
        | some e =>
          (some e, false, { s with upload_files := aset file_id rc.2 s.upload_files })
        | none =>
          let s1 := { s with upload_files := aset file_id rc.2 s.upload_files }
          let s2 := { s1 with chunk_files := remove_chunk_files chunks s1.chunk_files }
          let set_complete := fun (fi : FileInfo) => { fi with status := some ("complete") }
          let s3 := { s2 with upload_tracker := aupdate file_id set_complete s2.upload_tracker }
          (none, true, s3)

/-- save_chunk (storage.py lines 20-51).  now is datetime.now at the call;
writeOk false models the fragment open/write raising (disk full,
permission), in which case the function aborts before any tracker
mutation, so the error is surfaced with the state unchanged. -/
def save_chunk (writeOk : Bool) (now : Nat) (chunk : FileChunk) (s : StorageState) :
    Option String × StorageState :=
  if writeOk = false then (some ("StorageFailure"), s)
  else
    let path := chunk_path chunk
    let s1 : StorageState := { s with chunk_files := aset path chunk.data s.chunk_files }
    let tracker1 :=
      match alookup chunk.file_id s1.upload_tracker with
      | some _ => s1.upload_tracker
      | none => s1.upload_tracker ++ [(chunk.file_id, ⟨[], chunk.total_size, now, none⟩)]
    let rec1 : ChunkRec := ⟨chunk.start_byte, chunk.end_byte, path, chunk.checksum, now⟩
    let tracker2 := aupdate chunk.file_id
      (fun fi => { fi with chunks := fi.chunks ++ [rec1], last_updated := now }) tracker1
    let s2 : StorageState := { s1 with upload_tracker := tracker2 }
    match chunk.total_size with
    | none => (none, s2)
    | some n =>
      let total_received := sumLens ((alookup chunk.file_id s2.upload_tracker).getD ⟨[], none, 0, none⟩).chunks
      if n ≤ total_received then
        let a := assemble_file chunk.file_id s2
        (a.1, a.2.2)
      else (none, s2)

/-- The JSON returned by get_file_status; next_byte is none exactly on the
not_found branch, whose dict carries no such key. -/
structure StatusResult where
  file_id : String
  status : String
  received_bytes : Int
  total_bytes : Option Int
  last_updated : Option Nat
  next_byte : Option Nat
  chunks : List (Nat × Nat)
deriving DecidableEq

/-- max(c[end] for c in chunks); the fold with default 0 agrees with the
Python max on every nonempty list of naturals, and the default is only
ever exposed through the if on emptiness below. -/
def maxEnd (l : List ChunkRec) : Nat := l.foldl (fun m c => max m c.end_) 0

/-- get_file_status (storage.py lines 87-118). -/
def get_file_status (file_id : String) (s : StorageState) : StatusResult :=
  match alookup file_id s.upload_tracker with
  | none => ⟨file_id, "not_found", 0, none, none, none, []⟩
  | some file_info =>
    let chunks := file_info.chunks
    let status :=
      if file_info.status = some ("complete") then "complete"
      else if chunks ≠ [] then "partial"
      else "pending"
    ⟨file_id, status, sumLens chunks, file_info.total_size, some file_info.last_updated,
     some (if chunks = [] then 0 else maxEnd chunks + 1),
     chunks.map (fun c => (c.start, c.end_))⟩

/-- upload_file_chunk (main.py lines 48-96) after authentication and
Content-Range parsing: start_byte, end_byte, total_size come from the
parsed header (total_size none encodes the * wildcard) and raw_data is
the request body.  Result: the HTTP error detail if any, the next_byte
field of the success reply, and the new state. -/
def upload_file_chunk (writeOk : Bool) (now : Nat) (file_id : String)
    (start_byte end_byte : Nat) (total_size : Option Int) (raw_data : Bytes)
    (s : StorageState) : Option String × Option Nat × StorageState :=
  if raw_data.length < 12 then (some ("Invalid chunk format"), none, s)
  else
    let header := raw_data.take 12
    let chunk_data := raw_data.drop 12
    let checksum := chunk_data.foldl (fun a b => a + b) 0 % 256
    if checksum ≠ header.getLastD 0 then (some ("Checksum verification failed"), none, s)
    else
      match save_chunk writeOk now ⟨file_id, start_byte, end_byte, chunk_data, checksum, total_size, 0⟩ s with
      | (some e, s1) => (some e, none, s1)
      | (none, s1) => (none, some (end_byte + 1), s1)

/-- The loop of cleanup_stale_chunks (storage.py lines 135-154) over the
items snapshot, threading the chunk directory. -/
def cleanup_loop (threshold : Nat) :
    List (String × FileInfo) → List (String × Bytes) →
    List (String × FileInfo) × List (String × Bytes)
  | [], cf => ([], cf)
  | (fid, fi) :: rest, cf =>
    if fi.status = some ("complete") then
      let r := cleanup_loop threshold rest cf
      ((fid, fi) :: r.1, r.2)
    else if fi.chunks.all (fun c => decide (c.timestamp ≤ threshold)) then
      cleanup_loop threshold rest (remove_chunk_files fi.chunks cf)
    else
      let r := cleanup_loop threshold rest cf
      ((fid, fi) :: r.1, r.2)

/-- cleanup_stale_chunks (storage.py lines 131-154); threshold is the
timestamp of now - STALE_THRESHOLD. -/
def cleanup_stale_chunks (threshold : Nat) (s : StorageState) : StorageState :=
  let r := cleanup_loop threshold s.upload_tracker s.chunk_files
  ⟨r.1, r.2, s.upload_files⟩

/-- The loop of persist_incomplete_files (storage.py lines 160-187).  A
missing fragment file raises out of the whole sweep: the partial output
artifact keeps the bytes already written, the chunk files of that session stay,
its record stays, and the remaining sessions are left unprocessed. -/
def persist_loop (threshold : Nat) :
    List (String × FileInfo) → List (String × Bytes) → List (String × Bytes) →
    Option String × List (String × FileInfo) × List (String × Bytes) × List (String × Bytes)
  | [], cf, uf => (none, [], cf, uf)
  | (fid, fi) :: rest, cf, uf =>
    if fi.status = some ("complete") then
      let r := persist_loop threshold rest cf uf
      (r.1, (fid, fi) :: r.2.1, r.2.2.1, r.2.2.2)
    else if fi.chunks.all (fun c => decide (c.timestamp ≤ threshold)) ∧ fi.chunks ≠ [] then
      let rc := readConcat cf (sortByStart fi.chunks)
      match rc.1 with
      | some e => (some e, (fid, fi) :: rest, cf, aset (fid ++ ".incomplete") rc.2 uf)
      | none =>
        persist_loop threshold rest (remove_chunk_files fi.chunks cf)
          (aset (fid ++ ".incomplete") rc.2 uf)
    else
      let r := persist_loop threshold rest cf uf
      (r.1, (fid, fi) :: r.2.1, r.2.2.1, r.2.2.2)

/-- persist_incomplete_files (storage.py lines 156-187). -/
def persist_incomplete_files (threshold : Nat) (s : StorageState) : Option String × StorageState :=
  let r := persist_loop threshold s.upload_tracker s.chunk_files s.upload_files
  (r.1, ⟨r.2.1, r.2.2.1, r.2.2.2⟩)

/-- One iteration of periodic_cleanup (background.py lines 5-9): cleanup
first, then persist, both against the staleness threshold of the sweep. -/
def periodic_cleanup_iteration (threshold : Nat) (s : StorageState) : Option String × StorageState :=
  persist_incomplete_files threshold (cleanup_stale_chunks threshold s)

/-- The background tasks queued by POST /cleanup (main.py lines 159-167):
persist first, then (when persist did not raise) cleanup. -/
def trigger_cleanup_tasks (threshold : Nat) (s : StorageState) : Option String × StorageState :=
  let r := persist_incomplete_files threshold s
  match r.1 with
  | some e => (some e, r.2)
  | none => (none, cleanup_stale_chunks threshold r.2)

/-- Stated from the words of the specification, for comparison with the accounting
of the code: the merged, non-overlapping union of all ingested inclusive
byte ranges, as the set of covered byte positions; its card is the total
length of that union. -/
def spec_mergedCoverage (chunks : List ChunkRec) : Finset Nat :=
  chunks.foldl (fun acc c => acc ∪ Finset.Icc c.start c.end_) ∅

/-- The fresh session record used for .getD when reading the tracker. -/
def defaultFileInfo : FileInfo := ⟨[], none, 0, none⟩

/-! Concrete runs used to evaluate the code on the inputs the claims single
out.  Payloads are immaterial to the bookkeeping and are kept minimal. -/

def chunk_f_0_99 : FileChunk := ⟨"f", 0, 99, [], 0, none, 0⟩

def chunk_f_50_149 : FileChunk := ⟨"f", 50, 149, [], 0, none, 0⟩

/-- State after ingesting [0,99] and then the overlapping [50,149]. -/
def stateC1 : StorageState :=
  (save_chunk true 2 chunk_f_50_149 (save_chunk true 1 chunk_f_0_99 empty_state).2).2

def sessionC1 : FileInfo := (alookup ("f") stateC1.upload_tracker).getD defaultFileInfo

def chunk_g_0_99 : FileChunk := ⟨"g", 0, 99, [], 0, some 150, 0⟩

/-- State after ingesting the same [0,99] chunk twice with declared total
size 150: the naive sum reaches 200 and assembly is triggered. -/
def stateC2 : StorageState :=
  (save_chunk true 2 chunk_g_0_99 (save_chunk true 1 chunk_g_0_99 empty_state).2).2

def sessionC2 : FileInfo := (alookup ("g") stateC2.upload_tracker).getD defaultFileInfo

def chunk_h_0_9 : FileChunk := ⟨"h", 0, 9, [], 0, none, 0⟩

def stateC3_once : StorageState := (save_chunk true 1 chunk_h_0_9 empty_state).2

def stateC3_twice : StorageState := (save_chunk true 2 chunk_h_0_9 stateC3_once).2

/-- Endpoint call ingesting [50,99] into a fresh session: body is a 12-byte
zero header (checksum byte 0) and an empty payload (sum 0 mod 256 = 0). -/
def uploadC4 : Option String × Option Nat × StorageState :=
  upload_file_chunk true 5 ("k") 50 99 none (List.replicate 12 0) empty_state

def sessionC4 : FileInfo := (alookup ("k") uploadC4.2.2.upload_tracker).getD defaultFileInfo

/-- A stale session with unknown total size: one fragment with timestamp 0,
swept with staleness threshold 10. -/
def stateC5 : StorageState :=
  ⟨[("u", ⟨[⟨0, 9, "u_0_9.chunk", 0, 0⟩], none, 0, none⟩)], [("u_0_9.chunk", [7, 7])], []⟩

def sessionC5 : FileInfo := (alookup ("u") stateC5.upload_tracker).getD defaultFileInfo

/-- Two sessions under one threshold 10: session v has a chunk received at
time 20 (inside the window), session w is stale (time 0). -/
def stateC6 : StorageState :=
  ⟨[("v", ⟨[⟨0, 9, "v_0_9.chunk", 0, 20⟩], some 100, 20, none⟩),
    ("w", ⟨[⟨0, 9, "w_0_9.chunk", 0, 0⟩], none, 0, none⟩)],
   [("v_0_9.chunk", [1]), ("w_0_9.chunk", [2])], []⟩

def sessionC6 : FileInfo := ⟨[⟨0, 9, "v_0_9.chunk", 0, 20⟩], some 100, 20, none⟩

def chunk_m_first : FileChunk := ⟨"m", 0, 49, [], 0, some 100, 0⟩

/-- A later chunk for the same session declaring a different total size. -/
def chunk_m_conflict : FileChunk := ⟨"m", 50, 99, [], 0, some 200, 0⟩

def stateC7 : StorageState := (save_chunk true 1 chunk_m_first empty_state).2

def resultC7 : Option String × StorageState := save_chunk true 2 chunk_m_conflict stateC7

def sessionC7 : FileInfo := (alookup ("m") resultC7.2.upload_tracker).getD defaultFileInfo

def chunk_n_0_99 : FileChunk := ⟨"n", 0, 99, List.replicate 100 1, 0, some 200, 0⟩

def chunk_n_50_149 : FileChunk := ⟨"n", 50, 149, List.replicate 100 2, 0, some 200, 0⟩

/-- Overlapping chunks [0,99] and [50,149] with declared total size 200:
the naive sum reaches exactly 200 and assembly runs. -/
def stateC9 : StorageState :=
  (save_chunk true 2 chunk_n_50_149 (save_chunk true 1 chunk_n_0_99 empty_state).2).2

def sessionC9 : FileInfo := (alookup ("n") stateC9.upload_tracker).getD defaultFileInfo

/-- A session with two fragments on disk, used to exercise assemble_file
directly: declared size 4, ranges [2,3] and [0,1] recorded out of order. -/
def stateW9 : StorageState :=
  ⟨[("y", ⟨[⟨2, 3, "y_2_3.chunk", 0, 0⟩, ⟨0, 1, "y_0_1.chunk", 0, 0⟩], some 4, 0, none⟩)],
   [("y_2_3.chunk", [9, 9]), ("y_0_1.chunk", [8, 8])], []⟩

def sessionW9 : FileInfo :=
  ⟨[⟨2, 3, "y_2_3.chunk", 0, 0⟩, ⟨0, 1, "y_0_1.chunk", 0, 0⟩], some 4, 0, none⟩

/-! Theorems.  First the dictionary lemmas the sweep proofs use. -/

theorem alookup_aset_self (k : String) (v : α) (l : List (String × α)) :
    alookup k (aset k v l) = some v := by
  induction l with
  | nil => simp [aset, alookup]
  | cons p rest ih =>
    obtain ⟨k1, v1⟩ := p
    by_cases h : k1 = k
    · subst h
      simp [aset, alookup]
    · simp [aset, alookup, h, ih]

theorem alookup_aset_ne (k1 k : String) (v : α) (l : List (String × α)) (h : k1 ≠ k) :
    alookup k1 (aset k v l) = alookup k1 l := by
  have hsym : ¬ (k = k1) := fun he => h he.symm
  induction l with
  | nil => simp [aset, alookup, hsym]
  | cons p rest ih =>
    obtain ⟨k2, v2⟩ := p
    by_cases h2 : k2 = k
    · subst h2
      simp [aset, alookup, hsym]
    · by_cases h3 : k2 = k1
      · subst h3
        simp [aset, alookup, h2]
      · simp [aset, alookup, h2, h3, ih]

theorem alookup_adel_ne (k1 k : String) (l : List (String × α)) (h : k1 ≠ k) :
    alookup k1 (adel k l) = alookup k1 l := by
  induction l with
  | nil => simp [adel, alookup]
  | cons p rest ih =>
    obtain ⟨k2, v2⟩ := p
    by_cases h2 : k2 = k
    · subst h2
      have hsym : ¬ (k2 = k1) := fun he => h he.symm
      simp [adel, alookup, hsym, ih]
    · by_cases h3 : k2 = k1
      · subst h3
        simp [adel, alookup, h2]
      · simp [adel, alookup, h2, h3, ih]

theorem alookup_aupdate_self (k : String) (f : α → α) (l : List (String × α)) :
    alookup k (aupdate k f l) = (alookup k l).map f := by
  induction l with
  | nil => simp [aupdate, alookup]
  | cons p rest ih =>
    obtain ⟨k1, v1⟩ := p
    by_cases h : k1 = k
    · subst h
      simp [aupdate, alookup]
    · simp [aupdate, alookup, h, ih]

theorem alookup_aupdate_ne (k1 k : String) (f : α → α) (l : List (String × α)) (h : k1 ≠ k) :
    alookup k1 (aupdate k f l) = alookup k1 l := by
  induction l with
  | nil => simp [aupdate, alookup]
  | cons p rest ih =>
    obtain ⟨k2, v2⟩ := p
    by_cases h2 : k2 = k
    · subst h2
      have hsym : ¬ (k2 = k1) := fun he => h he.symm
      simp [aupdate, alookup, hsym, ih]
    · by_cases h3 : k2 = k1
      · subst h3
        simp [aupdate, alookup, h2]
      · simp [aupdate, alookup, h2, h3, ih]

theorem alookup_eq_none_of_not_mem (k : String) (l : List (String × α))
    (h : k ∉ l.map Prod.fst) : alookup k l = none := by
  induction l with
  | nil => simp [alookup]
  | cons p rest ih =>
    obtain ⟨k1, v1⟩ := p
    simp only [List.map_cons, List.mem_cons] at h
    push_neg at h
    have hsym : ¬ (k1 = k) := fun he => h.1 he.symm
    simp [alookup, hsym, ih h.2]

theorem mem_keys_of_alookup (k : String) (l : List (String × α)) (v : α)
    (h : alookup k l = some v) : k ∈ l.map Prod.fst := by
  induction l with
  | nil => simp [alookup] at h
  | cons p rest ih =>
    obtain ⟨k1, v1⟩ := p
    by_cases h1 : k1 = k
    · simp [h1]
    · simp [alookup, h1] at h
      simp [ih h]

theorem alookup_of_mem_nodup (l : List (String × α)) (x : String × α)
    (hnd : (l.map Prod.fst).Nodup) (hx : x ∈ l) : alookup x.1 l = some x.2 := by
  induction l with
  | nil => simp at hx
  | cons p rest ih =>
    obtain ⟨k1, v1⟩ := p
    simp only [List.map_cons, List.nodup_cons] at hnd
    rcases List.mem_cons.mp hx with h | h
    · subst h
      simp [alookup]
    · have hne : k1 ≠ x.1 := by
        intro he
        exact hnd.1 (he ▸ (List.mem_map.mpr ⟨x, h, rfl⟩))
      simp [alookup, hne, ih hnd.2 h]

theorem remove_chunk_files_alookup (chunks : List ChunkRec) (cf : List (String × Bytes))
    (p : String) (h : ∀ c ∈ chunks, c.path ≠ p) :
    alookup p (remove_chunk_files chunks cf) = alookup p cf := by
  induction chunks generalizing cf with
  | nil => simp [remove_chunk_files]
  | cons c rest ih =>
    have hstep : alookup p (adel c.path cf) = alookup p cf :=
      alookup_adel_ne p c.path cf (fun he => h c (by simp) he.symm)
    have := ih (adel c.path cf) (fun c2 hc2 => h c2 (by simp [hc2]))
    simpa [remove_chunk_files] using this.trans hstep

theorem string_append_cancel (a b suf : String) (h : a ++ suf = b ++ suf) : a = b := by
  have h1 : a.data ++ suf.data = b.data ++ suf.data := by
    have h2 := congrArg String.data h
    simpa [String.data_append] using h2
  exact String.ext (List.append_cancel_right h1)

/-- Every session surviving cleanup_stale_chunks is either complete or has
a chunk strictly newer than the threshold. -/
theorem cleanup_loop_survivors (threshold : Nat) (l : List (String × FileInfo))
    (cf : List (String × Bytes)) :
    ∀ x ∈ (cleanup_loop threshold l cf).1,
      x.2.status = some ("complete") ∨
        ¬ (x.2.chunks.all fun c => decide (c.timestamp ≤ threshold)) = true := by
  induction l generalizing cf with
  | nil => simp [cleanup_loop]
  | cons p rest ih =>
    obtain ⟨fid, fi⟩ := p
    intro x hx
    simp only [cleanup_loop] at hx
    split at hx
    · rcases List.mem_cons.mp hx with h | h
      · subst h
        left
        assumption
      · exact ih cf x h
    · split at hx
      · exact ih _ x hx
      · rcases List.mem_cons.mp hx with h | h
        · subst h
          right
          assumption
        · exact ih cf x h

/-- persist_incomplete_files does nothing on a tracker whose sessions are
all complete or recently active. -/
theorem persist_loop_skips (threshold : Nat) (l : List (String × FileInfo))
    (cf uf : List (String × Bytes))
    (h : ∀ x ∈ l, x.2.status = some ("complete") ∨
        ¬ (x.2.chunks.all fun c => decide (c.timestamp ≤ threshold)) = true) :
    persist_loop threshold l cf uf = (none, l, cf, uf) := by
  induction l generalizing cf uf with
  | nil => simp [persist_loop]
  | cons p rest ih =>
    obtain ⟨fid, fi⟩ := p
    have hrest : ∀ x ∈ rest, x.2.status = some ("complete") ∨
        ¬ (x.2.chunks.all fun c => decide (c.timestamp ≤ threshold)) = true :=
      fun x hx => h x (List.mem_cons_of_mem _ hx)
    have hhead := h (fid, fi) (List.mem_cons_self _ _)
    simp only [persist_loop]
    split
    · rw [ih cf uf hrest]
    · split
      · rename_i h1 h2
        exfalso
        rcases hhead with h3 | h3
        · exact h1 h3
        · exact h3 h2.1
      · rw [ih cf uf hrest]

/-- A key absent from the tracker is still absent after the persist sweep:
the sweep only drops or keeps entries, never adds one. -/
theorem persist_loop_absent (threshold : Nat) (l : List (String × FileInfo))
    (cf uf : List (String × Bytes)) (fid : String)
    (h : alookup fid l = none) :
    alookup fid (persist_loop threshold l cf uf).2.1 = none := by
  induction l generalizing cf uf with
  | nil => simpa [persist_loop] using h
  | cons p rest ih =>
    obtain ⟨k, v⟩ := p
    have hk : ¬ (k = fid) := by
      intro he
      simp [alookup, he] at h
    have hrest : alookup fid rest = none := by
      simpa [alookup, hk] using h
    simp only [persist_loop]
    split
    · simpa [alookup, hk] using ih cf uf hrest
    · split
      · split
        · simp [alookup, hk, hrest]
        · exact ih _ _ hrest
      · simpa [alookup, hk] using ih cf uf hrest

/-- Upload artifacts under a key that no non-skipped session would write
are preserved by the persist sweep. -/
theorem persist_loop_uploads_skip (threshold : Nat) (l : List (String × FileInfo))
    (cf uf : List (String × Bytes)) (K : String)
    (h : ∀ x ∈ l, x.1 ++ ".incomplete" = K →
        x.2.status = some ("complete") ∨
          ¬ ((x.2.chunks.all fun c => decide (c.timestamp ≤ threshold)) = true ∧
              x.2.chunks ≠ [])) :
    alookup K (persist_loop threshold l cf uf).2.2.2 = alookup K uf := by
  induction l generalizing cf uf with
  | nil => simp [persist_loop]
  | cons p rest ih =>
    obtain ⟨k, v⟩ := p
    have hrest : ∀ x ∈ rest, x.1 ++ ".incomplete" = K →
        x.2.status = some ("complete") ∨
          ¬ ((x.2.chunks.all fun c => decide (c.timestamp ≤ threshold)) = true ∧
              x.2.chunks ≠ []) :=
      fun x hx => h x (List.mem_cons_of_mem _ hx)
    simp only [persist_loop]
    split
    · exact ih cf uf hrest
    · split
      · rename_i h1 h2
        have hkey : ¬ (K = k ++ ".incomplete") := by
          intro he
          rcases h (k, v) (List.mem_cons_self _ _) he.symm with h3 | h3
          · exact h1 h3
          · exact h3 h2
        split
        · exact alookup_aset_ne K (k ++ ".incomplete") _ uf hkey
        · rw [ih _ _ hrest, alookup_aset_ne K (k ++ ".incomplete") _ uf hkey]
      · exact ih cf uf hrest

/-- A stale, non-complete session with fragments is processed by a persist
sweep that raises nothing: its record is removed from the tracker and an
artifact is written under its .incomplete name — with no condition at all
on the total_size of the session. -/
theorem persist_loop_processes (threshold : Nat) (l : List (String × FileInfo))
    (cf uf : List (String × Bytes)) (fid : String) (fi : FileInfo)
    (hnd : (l.map Prod.fst).Nodup)
    (hmem : alookup fid l = some fi)
    (hnc : ¬ (fi.status = some ("complete")))
    (hstale : (fi.chunks.all fun c => decide (c.timestamp ≤ threshold)) = true)
    (hne : fi.chunks ≠ [])
    (hok : (persist_loop threshold l cf uf).1 = none) :
    alookup fid (persist_loop threshold l cf uf).2.1 = none ∧
      ∃ content,
        alookup (fid ++ ".incomplete") (persist_loop threshold l cf uf).2.2.2 = some content := by
  induction l generalizing cf uf with
  | nil => simp [alookup] at hmem
  | cons p rest ih =>
    obtain ⟨k, v⟩ := p
    simp only [List.map_cons, List.nodup_cons] at hnd
    by_cases hk : k = fid
    · subst hk
      have hv : v = fi := by simpa [alookup] using hmem
      subst hv
      have habs : alookup k rest = none := alookup_eq_none_of_not_mem k rest hnd.1
      simp only [persist_loop] at hok ⊢
      rw [if_neg hnc] at hok ⊢
      rw [if_pos (And.intro hstale hne)] at hok ⊢
      cases hrc : (readConcat cf (sortByStart v.chunks)).1 with
      | some e => simp [hrc] at hok
      | none =>
        simp only [hrc] at hok ⊢
        constructor
        · exact persist_loop_absent threshold rest _ _ k habs
        · refine ⟨(readConcat cf (sortByStart v.chunks)).2, ?_⟩
          have hskip : ∀ x ∈ rest, x.1 ++ ".incomplete" = k ++ ".incomplete" →
              x.2.status = some ("complete") ∨
                ¬ ((x.2.chunks.all fun c => decide (c.timestamp ≤ threshold)) = true ∧
                    x.2.chunks ≠ []) := by
            intro x hx he
            exfalso
            exact hnd.1 ((string_append_cancel x.1 k (".incomplete") he) ▸
              List.mem_map.mpr ⟨x, hx, rfl⟩)
          rw [persist_loop_uploads_skip threshold rest _ _ _ hskip]
          exact alookup_aset_self (k ++ ".incomplete") _ _
    · have hmem2 : alookup fid rest = some fi := by
        simpa [alookup, hk] using hmem
      simp only [persist_loop] at hok ⊢
      split at hok
      · rename_i h1
        rw [if_pos h1]
        have := ih cf uf hnd.2 hmem2 hok
        exact ⟨by simpa [alookup, hk] using this.1, this.2⟩
      · rename_i h1
        split at hok
        · rename_i h2
          rw [if_neg h1, if_pos h2]
          cases hrc : (readConcat cf (sortByStart v.chunks)).1 with
          | some e => simp [hrc] at hok
          | none =>
            simp only [hrc] at hok ⊢
            exact ih _ _ hnd.2 hmem2 hok
        · rename_i h2
          rw [if_neg h1, if_neg h2]
          have := ih cf uf hnd.2 hmem2 hok
          exact ⟨by simpa [alookup, hk] using this.1, this.2⟩

/-- A key absent from the tracker is still absent after the cleanup sweep. -/
theorem cleanup_loop_absent (threshold : Nat) (l : List (String × FileInfo))
    (cf : List (String × Bytes)) (fid : String)
    (h : alookup fid l = none) :
    alookup fid (cleanup_loop threshold l cf).1 = none := by
  induction l generalizing cf with
  | nil => simpa [cleanup_loop] using h
  | cons p rest ih =>
    obtain ⟨k, v⟩ := p
    have hk : ¬ (k = fid) := by
      intro he
      simp [alookup, he] at h
    have hrest : alookup fid rest = none := by
      simpa [alookup, hk] using h
    simp only [cleanup_loop]
    split
    · simpa [alookup, hk] using ih cf hrest
    · split
      · exact ih _ hrest
      · simpa [alookup, hk] using ih cf hrest

/-- The record of a stale, non-complete session is removed by the cleanup sweep,
with no condition at all on the total_size of the session. -/
theorem cleanup_loop_removes (threshold : Nat) (l : List (String × FileInfo))
    (cf : List (String × Bytes)) (fid : String) (fi : FileInfo)
    (hnd : (l.map Prod.fst).Nodup)
    (hmem : alookup fid l = some fi)
    (hnc : ¬ (fi.status = some ("complete")))
    (hstale : (fi.chunks.all fun c => decide (c.timestamp ≤ threshold)) = true) :
    alookup fid (cleanup_loop threshold l cf).1 = none := by
  induction l generalizing cf with
  | nil => simp [alookup] at hmem
  | cons p rest ih =>
    obtain ⟨k, v⟩ := p
    simp only [List.map_cons, List.nodup_cons] at hnd
    by_cases hk : k = fid
    · subst hk
      have hv : v = fi := by simpa [alookup] using hmem
      subst hv
      have habs : alookup k rest = none := alookup_eq_none_of_not_mem k rest hnd.1
      simp only [cleanup_loop]
      rw [if_neg hnc, if_pos hstale]
      exact cleanup_loop_absent threshold rest _ k habs
    · have hmem2 : alookup fid rest = some fi := by
        simpa [alookup, hk] using hmem
      simp only [cleanup_loop]
      split
      · simpa [alookup, hk] using ih cf hnd.2 hmem2
      · split
        · exact ih _ hnd.2 hmem2
        · simpa [alookup, hk] using ih cf hnd.2 hmem2

/-- A session with any chunk newer than the threshold survives the cleanup
sweep with its record byte-for-byte intact. -/
theorem cleanup_loop_keeps (threshold : Nat) (l : List (String × FileInfo))
    (cf : List (String × Bytes)) (fid : String) (fi : FileInfo)
    (hmem : alookup fid l = some fi)
    (hrecent : ¬ (fi.chunks.all fun c => decide (c.timestamp ≤ threshold)) = true) :
    alookup fid (cleanup_loop threshold l cf).1 = some fi := by
  induction l generalizing cf with
  | nil => simp [alookup] at hmem
  | cons p rest ih =>
    obtain ⟨k, v⟩ := p
    by_cases hk : k = fid
    · subst hk
      have hv : v = fi := by simpa [alookup] using hmem
      subst hv
      simp only [cleanup_loop]
      by_cases h1 : v.status = some ("complete")
      · rw [if_pos h1]
        simp [alookup]
      · rw [if_neg h1, if_neg hrecent]
        simp [alookup]
    · have hmem2 : alookup fid rest = some fi := by
        simpa [alookup, hk] using hmem
      simp only [cleanup_loop]
      split
      · simpa [alookup, hk] using ih cf hmem2
      · split
        · exact ih _ hmem2
        · simpa [alookup, hk] using ih cf hmem2

/-- A session with any chunk newer than the threshold survives the persist
sweep with its record byte-for-byte intact. -/
theorem persist_loop_keeps (threshold : Nat) (l : List (String × FileInfo))
    (cf uf : List (String × Bytes)) (fid : String) (fi : FileInfo)
    (hmem : alookup fid l = some fi)
    (hrecent : ¬ (fi.chunks.all fun c => decide (c.timestamp ≤ threshold)) = true) :
    alookup fid (persist_loop threshold l cf uf).2.1 = some fi := by
  induction l generalizing cf uf with
  | nil => simp [alookup] at hmem
  | cons p rest ih =>
    obtain ⟨k, v⟩ := p
    by_cases hk : k = fid
    · subst hk
      have hv : v = fi := by simpa [alookup] using hmem
      subst hv
      simp only [persist_loop]
      by_cases h1 : v.status = some ("complete")
      · rw [if_pos h1]
        simp [alookup]
      · have h2 : ¬ ((v.chunks.all fun c => decide (c.timestamp ≤ threshold)) = true ∧
            v.chunks ≠ []) := fun hc => hrecent hc.1
        rw [if_neg h1, if_neg h2]
        simp [alookup]
    · have hmem2 : alookup fid rest = some fi := by
        simpa [alookup, hk] using hmem
      simp only [persist_loop]
      split
      · simpa [alookup, hk] using ih cf uf hmem2
      · split
        · split
          · simpa [alookup, hk] using hmem2
          · exact ih _ _ hmem2
        · simpa [alookup, hk] using ih cf uf hmem2

/-- A fragment file whose name no reclaimable session references survives
the cleanup sweep untouched. -/
theorem cleanup_loop_files_pres (threshold : Nat) (l : List (String × FileInfo))
    (cf : List (String × Bytes)) (p : String)
    (h : ∀ x ∈ l, ¬ (x.2.status = some ("complete")) →
        (x.2.chunks.all fun c => decide (c.timestamp ≤ threshold)) = true →
        ∀ c ∈ x.2.chunks, c.path ≠ p) :
    alookup p (cleanup_loop threshold l cf).2 = alookup p cf := by
  induction l generalizing cf with
  | nil => simp [cleanup_loop]
  | cons q rest ih =>
    obtain ⟨k, v⟩ := q
    have hrest : ∀ x ∈ rest, ¬ (x.2.status = some ("complete")) →
        (x.2.chunks.all fun c => decide (c.timestamp ≤ threshold)) = true →
        ∀ c ∈ x.2.chunks, c.path ≠ p :=
      fun x hx => h x (List.mem_cons_of_mem _ hx)
    simp only [cleanup_loop]
    by_cases h1 : v.status = some ("complete")
    · rw [if_pos h1]
      exact ih cf hrest
    · by_cases h2 : (v.chunks.all fun c => decide (c.timestamp ≤ threshold)) = true
      · rw [if_neg h1, if_pos h2]
        rw [ih _ hrest]
        exact remove_chunk_files_alookup v.chunks cf p
          (h (k, v) (List.mem_cons_self _ _) h1 h2)
      · rw [if_neg h1, if_neg h2]
        exact ih cf hrest

/-- A fragment file whose name no reclaimable session references survives
the persist sweep untouched. -/
theorem persist_loop_files_pres (threshold : Nat) (l : List (String × FileInfo))
    (cf uf : List (String × Bytes)) (p : String)
    (h : ∀ x ∈ l, ¬ (x.2.status = some ("complete")) →
        (x.2.chunks.all fun c => decide (c.timestamp ≤ threshold)) = true →
        ∀ c ∈ x.2.chunks, c.path ≠ p) :
    alookup p (persist_loop threshold l cf uf).2.2.1 = alookup p cf := by
  induction l generalizing cf uf with
  | nil => simp [persist_loop]
  | cons q rest ih =>
    obtain ⟨k, v⟩ := q
    have hrest : ∀ x ∈ rest, ¬ (x.2.status = some ("complete")) →
        (x.2.chunks.all fun c => decide (c.timestamp ≤ threshold)) = true →
        ∀ c ∈ x.2.chunks, c.path ≠ p :=
      fun x hx => h x (List.mem_cons_of_mem _ hx)
    simp only [persist_loop]
    by_cases h1 : v.status = some ("complete")
    · rw [if_pos h1]
      exact ih cf uf hrest
    · by_cases h2 : (v.chunks.all fun c => decide (c.timestamp ≤ threshold)) = true ∧
          v.chunks ≠ []
      · rw [if_neg h1, if_pos h2]
        cases hrc : (readConcat cf (sortByStart v.chunks)).1 with
        | some e => simp [hrc]
        | none =>
          simp only [hrc]
          rw [ih _ _ hrest]
          exact remove_chunk_files_alookup v.chunks cf p
            (h (k, v) (List.mem_cons_self _ _) h1 h2.1)
      · rw [if_neg h1, if_neg h2]
        exact ih cf uf hrest

/-- assemble_file either leaves the tracker alone (not found, size unknown,
sum below size, read failure) or only flips the status flag of the session to
complete; it never touches chunks or total_size. -/
theorem assemble_file_tracker_cases (file_id : String) (s : StorageState) :
    (assemble_file file_id s).2.2.upload_tracker = s.upload_tracker ∨
    (assemble_file file_id s).2.2.upload_tracker =
      aupdate file_id (fun fi => { fi with status := some ("complete") })
        s.upload_tracker := by
  cases halo : alookup file_id s.upload_tracker with
  | none => exact Or.inl (by simp [assemble_file, halo])
  | some file_info =>
    cases hts : file_info.total_size with
    | none => exact Or.inl (by simp [assemble_file, halo, hts])
    | some n =>
      by_cases hlt : sumLens (sortByStart file_info.chunks) < n
      · exact Or.inl (by simp [assemble_file, halo, hts, hlt])
      · cases hrc : (readConcat s.chunk_files (sortByStart file_info.chunks)).1 with
        | some e => exact Or.inl (by simp [assemble_file, halo, hts, hlt, hrc])
        | none => exact Or.inr (by simp [assemble_file, halo, hts, hlt, hrc])

/-- C7: counterexample — a later chunk for session m declaring total size
200 while the session was created with total size 100 is not rejected: the
call reports no error and the chunk is appended as a second record (the
stored total size does stay 100). -/
theorem claim_C7_counterexample_conflict_accepted :
    sessionC7.total_size = some 100 ∧ chunk_m_conflict.total_size = some 200 ∧
    resultC7.1 = none ∧ sessionC7.chunks.length = 2 := by
  refine ⟨by decide, by decide, by decide, by decide⟩

/-- C7 (amended): the stored totalSize is fixed at session creation and no
later save_chunk call ever changes it, but a conflicting later declaration
is not rejected — there is no SizeConflict error: the chunk is accepted and
appended to the session (and the conflicting declared size is merely used
for the completion-trigger comparison). -/
theorem claim_C7_total_size_immutable_no_rejection
    (now : Nat) (chunk : FileChunk) (s : StorageState) (fi : FileInfo)
    (hmem : alookup chunk.file_id s.upload_tracker = some fi)
    (hdiff : chunk.total_size ≠ fi.total_size) :
    ∃ fi2, alookup chunk.file_id (save_chunk true now chunk s).2.upload_tracker = some fi2 ∧
      fi2.total_size = fi.total_size ∧
      fi2.chunks = fi.chunks ++
        [⟨chunk.start_byte, chunk.end_byte, chunk_path chunk, chunk.checksum, now⟩] := by
  have hup : alookup chunk.file_id
      (aupdate chunk.file_id
        (fun fi => { fi with
          chunks := fi.chunks ++
            [⟨chunk.start_byte, chunk.end_byte, chunk_path chunk, chunk.checksum, now⟩],
          last_updated := now }) s.upload_tracker) =
      some { fi with
        chunks := fi.chunks ++
          [⟨chunk.start_byte, chunk.end_byte, chunk_path chunk, chunk.checksum, now⟩],
        last_updated := now } := by
    rw [alookup_aupdate_self, hmem]
    rfl
  have hup2 : alookup chunk.file_id
      (aupdate chunk.file_id (fun f => { f with status := some ("complete") })
        (aupdate chunk.file_id
          (fun fi => { fi with
            chunks := fi.chunks ++
              [⟨chunk.start_byte, chunk.end_byte, chunk_path chunk, chunk.checksum, now⟩],
            last_updated := now }) s.upload_tracker)) =
      some { fi with
        chunks := fi.chunks ++
          [⟨chunk.start_byte, chunk.end_byte, chunk_path chunk, chunk.checksum, now⟩],
        last_updated := now, status := some ("complete") } := by
    rw [alookup_aupdate_self, alookup_aupdate_self, hmem]
    rfl
  simp only [save_chunk, hmem]
  cases hts : chunk.total_size with
  | none =>
    exact ⟨{ fi with
      chunks := fi.chunks ++
        [⟨chunk.start_byte, chunk.end_byte, chunk_path chunk, chunk.checksum, now⟩],
      last_updated := now }, hup, rfl, rfl⟩
  | some n =>
    by_cases hcond : n ≤ sumLens ((alookup chunk.file_id
        (aupdate chunk.file_id
          (fun fi => { fi with
            chunks := fi.chunks ++
              [⟨chunk.start_byte, chunk.end_byte, chunk_path chunk, chunk.checksum, now⟩],
            last_updated := now }) s.upload_tracker)).getD ⟨[], none, 0, none⟩).chunks
    · rcases assemble_file_tracker_cases chunk.file_id
          ⟨aupdate chunk.file_id
            (fun fi => { fi with
              chunks := fi.chunks ++
                [⟨chunk.start_byte, chunk.end_byte, chunk_path chunk, chunk.checksum, now⟩],
              last_updated := now }) s.upload_tracker,
            aset (chunk_path chunk) chunk.data s.chunk_files, s.upload_files⟩ with
        hcase | hcase
      · refine ⟨{ fi with
          chunks := fi.chunks ++
            [⟨chunk.start_byte, chunk.end_byte, chunk_path chunk, chunk.checksum, now⟩],
          last_updated := now }, ?_, rfl, rfl⟩
        show alookup chunk.file_id (if n ≤ sumLens ((alookup chunk.file_id
          (aupdate chunk.file_id
            (fun fi => { fi with
              chunks := fi.chunks ++
                [⟨chunk.start_byte, chunk.end_byte, chunk_path chunk, chunk.checksum, now⟩],
              last_updated := now }) s.upload_tracker)).getD ⟨[], none, 0, none⟩).chunks then _
          else (_ : Option String × StorageState)).2.upload_tracker = _
        rw [if_pos hcond]
        exact hcase ▸ hup
      · refine ⟨{ fi with
          chunks := fi.chunks ++
            [⟨chunk.start_byte, chunk.end_byte, chunk_path chunk, chunk.checksum, now⟩],
          last_updated := now, status := some ("complete") }, ?_, rfl, rfl⟩
        show alookup chunk.file_id (if n ≤ sumLens ((alookup chunk.file_id
          (aupdate chunk.file_id
            (fun fi => { fi with
              chunks := fi.chunks ++
                [⟨chunk.start_byte, chunk.end_byte, chunk_path chunk, chunk.checksum, now⟩],
              last_updated := now }) s.upload_tracker)).getD ⟨[], none, 0, none⟩).chunks then _
          else (_ : Option String × StorageState)).2.upload_tracker = _
        rw [if_pos hcond]
        exact hcase ▸ hup2
    · refine ⟨{ fi with
        chunks := fi.chunks ++
          [⟨chunk.start_byte, chunk.end_byte, chunk_path chunk, chunk.checksum, now⟩],
        last_updated := now }, ?_, rfl, rfl⟩
      show alookup chunk.file_id (if n ≤ sumLens ((alookup chunk.file_id
        (aupdate chunk.file_id
          (fun fi => { fi with
            chunks := fi.chunks ++
              [⟨chunk.start_byte, chunk.end_byte, chunk_path chunk, chunk.checksum, now⟩],
            last_updated := now }) s.upload_tracker)).getD ⟨[], none, 0, none⟩).chunks then _
        else (_ : Option String × StorageState)).2.upload_tracker = _
      rw [if_neg hcond]
      exact hup

/-- Witness for C7 (amended): applies the theorem to the session m created
with total size 100 receiving a chunk that declares 200. -/
theorem claim_C7_total_size_immutable_no_rejection_witness :
    (alookup ("m") stateC7.upload_tracker =
        some ⟨[⟨0, 49, "m_0_49.chunk", 0, 1⟩], some 100, 1, none⟩ ∧
      chunk_m_conflict.total_size ≠
        (⟨[⟨0, 49, "m_0_49.chunk", 0, 1⟩], some 100, 1, none⟩ : FileInfo).total_size) ∧
    ∃ fi2, alookup ("m") (save_chunk true 2 chunk_m_conflict stateC7).2.upload_tracker =
        some fi2 ∧
      fi2.total_size = (⟨[⟨0, 49, "m_0_49.chunk", 0, 1⟩], some 100, 1, none⟩ :
        FileInfo).total_size ∧
      fi2.chunks = (⟨[⟨0, 49, "m_0_49.chunk", 0, 1⟩], some 100, 1, none⟩ :
          FileInfo).chunks ++
        [⟨chunk_m_conflict.start_byte, chunk_m_conflict.end_byte,
          chunk_path chunk_m_conflict, chunk_m_conflict.checksum, 2⟩] :=
  ⟨⟨by decide, by decide⟩,
    claim_C7_total_size_immutable_no_rejection 2 chunk_m_conflict stateC7
      ⟨[⟨0, 49, "m_0_49.chunk", 0, 1⟩], some 100, 1, none⟩ (by decide) (by decide)⟩

theorem sumLens_foldl (l : List ChunkRec) (a : Int) :
    List.foldl (fun acc c => acc + chunk_len c) a l = a + sumLens l := by
  induction l generalizing a with
  | nil => simp [sumLens]
  | cons c rest ih =>
    have h1 : sumLens (c :: rest) = 0 + chunk_len c + sumLens rest := by
      show List.foldl _ 0 (c :: rest) = _
      rw [List.foldl_cons, ih]
    rw [List.foldl_cons, ih, h1]
    omega

theorem sumLens_cons (c : ChunkRec) (l : List ChunkRec) :
    sumLens (c :: l) = chunk_len c + sumLens l := by
  show List.foldl _ 0 (c :: l) = _
  rw [List.foldl_cons, sumLens_foldl]
  omega

theorem mem_insertByStart (c x : ChunkRec) (l : List ChunkRec) :
    x ∈ insertByStart c l ↔ x = c ∨ x ∈ l := by
  induction l with
  | nil => simp [insertByStart]
  | cons d ds ih =>
    by_cases h : c.start < d.start
    · simp [insertByStart, h]
    · simp only [insertByStart, h, if_false, List.mem_cons, ih]
      tauto

theorem mem_sortByStart (x : ChunkRec) (l : List ChunkRec) (hx : x ∈ sortByStart l) :
    x ∈ l := by
  have haux : ∀ (l2 acc : List ChunkRec),
      x ∈ l2.foldl (fun a c => insertByStart c a) acc → x ∈ acc ∨ x ∈ l2 := by
    intro l2
    induction l2 with
    | nil => exact fun acc h => Or.inl h
    | cons c rest ih =>
      intro acc h
      rcases ih (insertByStart c acc) h with h2 | h2
      · rcases (mem_insertByStart c x acc).mp h2 with h3 | h3
        · right
          simp [h3]
        · exact Or.inl h3
      · right
        simp [h2]
  rcases haux l [] hx with h | h
  · simp at h
  · exact h

/-- When every fragment file is present, the read loop raises nothing and
returns the concatenation of the fragments in list order. -/
theorem readConcat_ok (cf : List (String × Bytes)) (l : List ChunkRec)
    (h : ∀ c ∈ l, (alookup c.path cf).isSome) :
    readConcat cf l = (none, (l.map fun c => (alookup c.path cf).getD []).flatten) := by
  induction l with
  | nil => simp [readConcat]
  | cons c rest ih =>
    obtain ⟨d, hd⟩ := Option.isSome_iff_exists.mp (h c (List.mem_cons_self _ _))
    have hrest := ih (fun c2 hc2 => h c2 (List.mem_cons_of_mem _ hc2))
    simp [readConcat, hd, hrest]

/-- When the stored size of each fragment equals its declared range length, the
total of the fragment sizes is exactly the naive length sum of the tracker. -/
theorem sum_read_lengths_eq_sumLens (cf : List (String × Bytes)) (l : List ChunkRec)
    (h : ∀ c ∈ l, ((alookup c.path cf).getD []).length = c.end_ - c.start + 1 ∧
        c.start ≤ c.end_) :
    (((l.map fun c => ((alookup c.path cf).getD []).length).sum : Nat) : Int) = sumLens l := by
  induction l with
  | nil => simp [sumLens]
  | cons c rest ih =>
    have hc := h c (List.mem_cons_self _ _)
    have hrest := ih (fun c2 hc2 => h c2 (List.mem_cons_of_mem _ hc2))
    rw [List.map_cons, List.sum_cons, sumLens_cons]
    push_cast
    rw [hc.1]
    push_cast
    rw [← hrest]
    have hle : c.start ≤ c.end_ := hc.2
    simp only [chunk_len]
    push_cast
    omega

/-- C9: counterexample for the exceeds-totalSize part — session n holds the
overlapping ranges [0,99] and [50,149] and was assembled, yet its artifact
has exactly 200 bytes, equal to (not exceeding) the declared totalSize of
200: with overlap, the raw sum can merely reach the declared size. -/
theorem claim_C9_counterexample_size_not_exceeded :
    sessionC9.chunks.map (fun c => (c.start, c.end_)) = [(0, 99), (50, 149)] ∧
    sessionC9.status = some ("complete") ∧
    sessionC9.total_size = some 200 ∧
    (alookup ("n") stateC9.upload_files).map List.length = some 200 := by
  refine ⟨by decide, by decide, by decide, by decide⟩

/-- C9 (amended): successful assembly writes, in ascending start order, the
full stored fragment of every recorded chunk — overlap regions repeated —
so the artifact is the concatenation of all fragments and its size is the
sum of all fragment sizes; when each fragment is as long as its declared
range, that size is at least the declared totalSize (equality is possible
under overlap, so it does not always strictly exceed it). -/
theorem claim_C9_assembly_concatenates_every_fragment
    (s : StorageState) (fid : String) (fi : FileInfo) (n : Int)
    (hmem : alookup fid s.upload_tracker = some fi)
    (hts : fi.total_size = some n)
    (hge : ¬ (sumLens (sortByStart fi.chunks) < n))
    (hfiles : ∀ c ∈ fi.chunks, (alookup c.path s.chunk_files).isSome) :
    (assemble_file fid s).1 = none ∧
    (assemble_file fid s).2.1 = true ∧
    alookup fid (assemble_file fid s).2.2.upload_files =
      some ((sortByStart fi.chunks).map
        (fun c => (alookup c.path s.chunk_files).getD [])).flatten ∧
    (((sortByStart fi.chunks).map
        (fun c => (alookup c.path s.chunk_files).getD [])).flatten).length =
      ((sortByStart fi.chunks).map
        (fun c => ((alookup c.path s.chunk_files).getD []).length)).sum ∧
    ((∀ c ∈ fi.chunks, ((alookup c.path s.chunk_files).getD []).length =
        c.end_ - c.start + 1 ∧ c.start ≤ c.end_) →
      n ≤ ((((sortByStart fi.chunks).map
        (fun c => (alookup c.path s.chunk_files).getD [])).flatten).length : Int)) := by
  have hfiles2 : ∀ c ∈ sortByStart fi.chunks, (alookup c.path s.chunk_files).isSome :=
    fun c hc => hfiles c (mem_sortByStart c fi.chunks hc)
  have hrc := readConcat_ok s.chunk_files (sortByStart fi.chunks) hfiles2
  have hlen : (((sortByStart fi.chunks).map
      (fun c => (alookup c.path s.chunk_files).getD [])).flatten).length =
      ((sortByStart fi.chunks).map
        (fun c => ((alookup c.path s.chunk_files).getD []).length)).sum := by
    rw [List.length_flatten, List.map_map]
    rfl
  refine ⟨?_, ?_, ?_, hlen, ?_⟩
  · simp [assemble_file, hmem, hts, hge, hrc]
  · simp [assemble_file, hmem, hts, hge, hrc]
  · simp only [assemble_file, hmem, hts, hge, if_false, hrc]
    exact alookup_aset_self fid _ s.upload_files
  · intro hlens
    have hlens2 : ∀ c ∈ sortByStart fi.chunks,
        ((alookup c.path s.chunk_files).getD []).length = c.end_ - c.start + 1 ∧
          c.start ≤ c.end_ :=
      fun c hc => hlens c (mem_sortByStart c fi.chunks hc)
    have hsum := sum_read_lengths_eq_sumLens s.chunk_files (sortByStart fi.chunks) hlens2
    rw [hlen]
    rw [hsum]
    omega

/-- Witness for C9 (amended): the theorem applied to session y of stateW9,
whose two fragments [2,3] and [0,1] are on disk with their range lengths;
every hypothesis holds by evaluation. -/
theorem claim_C9_assembly_concatenates_every_fragment_witness :
    (alookup ("y") stateW9.upload_tracker = some sessionW9 ∧
      sessionW9.total_size = some 4 ∧
      ¬ (sumLens (sortByStart sessionW9.chunks) < 4) ∧
      (∀ c ∈ sessionW9.chunks, (alookup c.path stateW9.chunk_files).isSome)) ∧
    (assemble_file ("y") stateW9).1 = none ∧
    (assemble_file ("y") stateW9).2.1 = true ∧
    alookup ("y") (assemble_file ("y") stateW9).2.2.upload_files =
      some ((sortByStart sessionW9.chunks).map
        (fun c => (alookup c.path stateW9.chunk_files).getD [])).flatten ∧
    (((sortByStart sessionW9.chunks).map
        (fun c => (alookup c.path stateW9.chunk_files).getD [])).flatten).length =
      ((sortByStart sessionW9.chunks).map
        (fun c => ((alookup c.path stateW9.chunk_files).getD []).length)).sum ∧
    ((∀ c ∈ sessionW9.chunks, ((alookup c.path stateW9.chunk_files).getD []).length =
        c.end_ - c.start + 1 ∧ c.start ≤ c.end_) →
      4 ≤ ((((sortByStart sessionW9.chunks).map
        (fun c => (alookup c.path stateW9.chunk_files).getD [])).flatten).length : Int)) :=
  ⟨⟨by decide, by decide, by decide, by decide⟩,
    claim_C9_assembly_concatenates_every_fragment stateW9 ("y") sessionW9 4
      (by decide) (by decide) (by decide) (by decide)⟩

/-- C10: in the periodic sweep order (cleanup first, then persist) the
persist pass finds no stale session and leaves the state of the cleanup
pass completely unchanged, raising nothing — so the periodic path never
writes a .incomplete artifact; the on-demand POST /cleanup order (persist
first) does write one on the stale unknown-size session of stateC5. -/
theorem claim_C10_periodic_order_never_persists :
    (∀ (threshold : Nat) (s : StorageState),
        periodic_cleanup_iteration threshold s = (none, cleanup_stale_chunks threshold s)) ∧
    alookup ("u.incomplete") (trigger_cleanup_tasks 10 stateC5).2.upload_files = some [7, 7] := by
  constructor
  · intro threshold s
    have hs := cleanup_loop_survivors threshold s.upload_tracker s.chunk_files
    have hskip := persist_loop_skips threshold
      (cleanup_loop threshold s.upload_tracker s.chunk_files).1
      (cleanup_loop threshold s.upload_tracker s.chunk_files).2
      s.upload_files hs
    simp [periodic_cleanup_iteration, persist_incomplete_files, cleanup_stale_chunks, hskip]
  · decide

/-- C1: the claim is false of the code — the reported covered-bytes value is
the raw per-chunk sum, not the length of the merged union.  After ingesting
[0,99] and then [50,149] the session reports received_bytes = 200, while the
merged, non-overlapping union of the ingested ranges has length 150. -/
theorem claim_C1_covered_bytes_is_raw_sum :
    (get_file_status ("f") stateC1).received_bytes = 200 ∧
    (spec_mergedCoverage sessionC1.chunks).card = 150 := by
  constructor
  · decide
  · decide

/-- C2: the claim is false of the code — completion is triggered by the naive
sum of per-chunk lengths, not by exact merged coverage.  With declared total
size 150, ingesting [0,99] twice drives the naive sum to 200 ≥ 150, so the
session is assembled and reported complete although byte 100 was never
received and the merged coverage has only 100 bytes. -/
theorem claim_C2_complete_without_full_coverage :
    (get_file_status ("g") stateC2).status = "complete" ∧
    (get_file_status ("g") stateC2).received_bytes = 200 ∧
    100 ∉ spec_mergedCoverage sessionC2.chunks ∧
    (spec_mergedCoverage sessionC2.chunks).card = 100 := by
  refine ⟨by decide, by decide, by decide, by decide⟩

/-- C3: the claim is false of the code — re-ingesting the identical chunk is
not idempotent for the reported coverage.  One ingestion of [0,9] reports
received_bytes = 10; ingesting the very same chunk again reports 20. -/
theorem claim_C3_reingest_doubles_coverage :
    (get_file_status ("h") stateC3_once).received_bytes = 10 ∧
    (get_file_status ("h") stateC3_twice).received_bytes = 20 := by
  exact ⟨by decide, by decide⟩

/-- C4: the claim is false of the code — the upload endpoint answers
next_byte = end_byte + 1 of the chunk just ingested.  After ingesting
[50,99] as the only chunk of a fresh session the accepted reply carries
next_byte = 100, although byte 0 is not covered, so the lowest uncovered
byte offset is 0, not 100. -/
theorem claim_C4_next_byte_is_end_plus_one :
    uploadC4.1 = none ∧ uploadC4.2.1 = some 100 ∧
    0 ∉ spec_mergedCoverage sessionC4.chunks := by
  refine ⟨by decide, by decide, by decide⟩

/-- C5: counterexample — a stale non-complete session whose total size is
unknown is nevertheless persisted by persist_incomplete_files: after the
sweep, the u.incomplete artifact exists with the fragment bytes and the
session record is gone, although the claim requires the unknown-size case
to discard without persisting any artifact. -/
theorem claim_C5_counterexample_unknown_size_persisted :
    sessionC5.total_size = none ∧
    (persist_incomplete_files 10 stateC5).1 = none ∧
    alookup ("u.incomplete") (persist_incomplete_files 10 stateC5).2.upload_files =
      some [7, 7] ∧
    alookup ("u") (persist_incomplete_files 10 stateC5).2.upload_tracker = none := by
  refine ⟨by decide, by decide, by decide, by decide⟩

/-- C5 (amended): neither reclamation pass consults totalSize.  For every
stale non-complete session holding at least one fragment record, a persist
pass that raises no I/O error writes a best-effort artifact under the
per-session .incomplete name and removes the session record — whether or not
totalSize is known; and the cleanup pass removes the session record without
writing any artifact, also regardless of totalSize. -/
theorem claim_C5_reclamation_ignores_total_size
    (threshold : Nat) (s : StorageState) (fid : String) (fi : FileInfo)
    (hnd : (s.upload_tracker.map Prod.fst).Nodup)
    (hmem : alookup fid s.upload_tracker = some fi)
    (hnc : ¬ (fi.status = some ("complete")))
    (hstale : (fi.chunks.all fun c => decide (c.timestamp ≤ threshold)) = true)
    (hne : fi.chunks ≠ [])
    (hok : (persist_incomplete_files threshold s).1 = none) :
    (∃ content, alookup (fid ++ ".incomplete")
        (persist_incomplete_files threshold s).2.upload_files = some content) ∧
    alookup fid (persist_incomplete_files threshold s).2.upload_tracker = none ∧
    alookup fid (cleanup_stale_chunks threshold s).upload_tracker = none ∧
    (cleanup_stale_chunks threshold s).upload_files = s.upload_files := by
  have hok2 : (persist_loop threshold s.upload_tracker s.chunk_files s.upload_files).1 =
      none := hok
  have hp := persist_loop_processes threshold s.upload_tracker s.chunk_files s.upload_files
    fid fi hnd hmem hnc hstale hne hok2
  exact ⟨hp.2, hp.1,
    cleanup_loop_removes threshold s.upload_tracker s.chunk_files fid fi hnd hmem hnc hstale,
    rfl⟩

/-- Witness for C5 (amended): the hypotheses hold and the theorem applies
at the concrete stale unknown-size session of stateC5. -/
theorem claim_C5_reclamation_ignores_total_size_witness :
    ((stateC5.upload_tracker.map Prod.fst).Nodup ∧
      alookup ("u") stateC5.upload_tracker =
        some ⟨[⟨0, 9, "u_0_9.chunk", 0, 0⟩], none, 0, none⟩ ∧
      (persist_incomplete_files 10 stateC5).1 = none) ∧
    (∃ content, alookup ("u" ++ ".incomplete")
        (persist_incomplete_files 10 stateC5).2.upload_files = some content) ∧
    alookup ("u") (persist_incomplete_files 10 stateC5).2.upload_tracker = none ∧
    alookup ("u") (cleanup_stale_chunks 10 stateC5).upload_tracker = none ∧
    (cleanup_stale_chunks 10 stateC5).upload_files = stateC5.upload_files :=
  ⟨⟨by decide, by decide, by decide⟩,
    claim_C5_reclamation_ignores_total_size 10 stateC5 ("u")
      ⟨[⟨0, 9, "u_0_9.chunk", 0, 0⟩], none, 0, none⟩
      (by decide) (by decide) (by decide) (by decide) (by decide) (by decide)⟩

/-- C6: a session with at least one chunk received inside the staleness
window survives both reclamation passes entirely unchanged: its registry
record is intact after cleanup and after persist, no .incomplete artifact
is written for it, cleanup touches no artifact at all, and every fragment
file of the session is preserved by both passes (fragment files of other
sessions being distinct, as the per-session file naming guarantees). -/
theorem claim_C6_recent_session_survives_sweep
    (threshold : Nat) (s : StorageState) (fid : String) (fi : FileInfo)
    (hnd : (s.upload_tracker.map Prod.fst).Nodup)
    (hmem : alookup fid s.upload_tracker = some fi)
    (hrecent : ∃ c ∈ fi.chunks, threshold < c.timestamp)
    (hdisj : ∀ x ∈ s.upload_tracker, x.1 ≠ fid →
        ∀ c ∈ x.2.chunks, ∀ c0 ∈ fi.chunks, c.path ≠ c0.path) :
    alookup fid (cleanup_stale_chunks threshold s).upload_tracker = some fi ∧
    alookup fid (persist_incomplete_files threshold s).2.upload_tracker = some fi ∧
    alookup (fid ++ ".incomplete") (persist_incomplete_files threshold s).2.upload_files =
      alookup (fid ++ ".incomplete") s.upload_files ∧
    (cleanup_stale_chunks threshold s).upload_files = s.upload_files ∧
    (∀ p ∈ fi.chunks.map ChunkRec.path,
      alookup p (cleanup_stale_chunks threshold s).chunk_files = alookup p s.chunk_files ∧
      alookup p (persist_incomplete_files threshold s).2.chunk_files =
        alookup p s.chunk_files) := by
  obtain ⟨c0, hc0, hlt⟩ := hrecent
  have hrec2 : ¬ (fi.chunks.all fun c => decide (c.timestamp ≤ threshold)) = true := by
    intro hall
    have := List.all_eq_true.mp hall c0 hc0
    simp at this
    omega
  have hsame : ∀ x ∈ s.upload_tracker, x.1 = fid → x.2 = fi := by
    intro x hx he
    have := alookup_of_mem_nodup s.upload_tracker x hnd hx
    rw [he, hmem] at this
    exact (Option.some_inj.mp this).symm
  refine ⟨?_, ?_, ?_, rfl, ?_⟩
  · exact cleanup_loop_keeps threshold s.upload_tracker s.chunk_files fid fi hmem hrec2
  · exact persist_loop_keeps threshold s.upload_tracker s.chunk_files s.upload_files
      fid fi hmem hrec2
  · refine persist_loop_uploads_skip threshold s.upload_tracker s.chunk_files
      s.upload_files (fid ++ ".incomplete") ?_
    intro x hx he
    have hxfid : x.1 = fid := string_append_cancel x.1 fid (".incomplete") he
    have hxfi : x.2 = fi := hsame x hx hxfid
    right
    intro hc
    exact hrec2 (hxfi ▸ hc.1)
  · intro p hp
    obtain ⟨cp, hcp, hcpeq⟩ := List.mem_map.mp hp
    have hsafe : ∀ x ∈ s.upload_tracker, ¬ (x.2.status = some ("complete")) →
        (x.2.chunks.all fun c => decide (c.timestamp ≤ threshold)) = true →
        ∀ c ∈ x.2.chunks, c.path ≠ p := by
      intro x hx _ hallx c hc
      by_cases hxfid : x.1 = fid
      · exact absurd ((hsame x hx hxfid) ▸ hallx) hrec2
      · exact hcpeq ▸ hdisj x hx hxfid c hc cp hcp
    exact ⟨cleanup_loop_files_pres threshold s.upload_tracker s.chunk_files p hsafe,
      persist_loop_files_pres threshold s.upload_tracker s.chunk_files s.upload_files p hsafe⟩

/-- Witness for C6: in stateC6 session v has a chunk inside the window
(20 > 10) next to a stale session w, and the theorem applies. -/
theorem claim_C6_recent_session_survives_sweep_witness :
    ((stateC6.upload_tracker.map Prod.fst).Nodup ∧
      alookup ("v") stateC6.upload_tracker = some sessionC6 ∧
      (∃ c ∈ sessionC6.chunks, 10 < c.timestamp) ∧
      (∀ x ∈ stateC6.upload_tracker, x.1 ≠ "v" →
        ∀ c ∈ x.2.chunks, ∀ c0 ∈ sessionC6.chunks, c.path ≠ c0.path)) ∧
    alookup ("v") (cleanup_stale_chunks 10 stateC6).upload_tracker = some sessionC6 ∧
    alookup ("v") (persist_incomplete_files 10 stateC6).2.upload_tracker = some sessionC6 ∧
    alookup ("v" ++ ".incomplete") (persist_incomplete_files 10 stateC6).2.upload_files =
      alookup ("v" ++ ".incomplete") stateC6.upload_files ∧
    (cleanup_stale_chunks 10 stateC6).upload_files = stateC6.upload_files ∧
    (∀ p ∈ sessionC6.chunks.map ChunkRec.path,
      alookup p (cleanup_stale_chunks 10 stateC6).chunk_files = alookup p stateC6.chunk_files ∧
      alookup p (persist_incomplete_files 10 stateC6).2.chunk_files =
        alookup p stateC6.chunk_files) :=
  ⟨⟨by decide, by decide, by decide, by decide⟩,
    claim_C6_recent_session_survives_sweep 10 stateC6 ("v") sessionC6
      (by decide) (by decide) (by decide) (by decide)⟩

/-- C8: when the fragment write raises, save_chunk surfaces the failure and
returns with the whole storage state exactly as it was: no interval or
fragment record is appended and last_updated is untouched, because the
tracker mutation only happens after the write succeeds. -/
theorem claim_C8_write_failure_leaves_state_unchanged
    (now : Nat) (chunk : FileChunk) (s : StorageState) :
    save_chunk false now chunk s = (some ("StorageFailure"), s) := rfl

/-- Witness for C8 at a concrete chunk and state. -/
theorem claim_C8_write_failure_leaves_state_unchanged_witness :
    save_chunk false 3 chunk_h_0_9 empty_state = (some ("StorageFailure"), empty_state) :=
  claim_C8_write_failure_leaves_state_unchanged 3 chunk_h_0_9 empty_state

end FileTransfer
